import Mathlib

/-!
# Verification of `address-utils` (src/src/main.rs)

Shallow embedding of the vanity-address search program. Addresses (`H160`),
private keys, salts, code hashes (`H256`) and nonces (`U256`) are modelled as
`Nat`; the bitwise operations used by the program (`&`, `==`) do not overflow,
so no explicit truncation is needed. The elliptic-curve / keccak primitives
from `ethers_core` (`secret_key_to_address`, `get_contract_address`,
`get_create2_address_from_hash`) are external collaborators of the repository;
they are modelled as an abstract `Crypto` record of deterministic functions,
exactly the narrow interface the program consumes. Randomness
(`SigningKey::random`, `H256::random_using`) is modelled by passing the drawn
value in explicitly (for the per-iteration functions) or by a per-worker
stream `Nat → Nat` (for the thread semantics).

The concurrent `main` is embedded as a small-step interleaving semantics:
a system state holds the shared `AtomicBool` flag, the per-thread worker
states, and logs of emitted matches and of generation steps; a schedule is a
list of actions (one worker taking its next atomic step, or an external
cancellation setting the flag). Each worker step corresponds to one shared
interaction of the Rust loop: loading `exit`, running one `generate_*` call
(which draws randomness, derives, tests, and — on success — prints the match,
all thread-locally), or storing `exit = true`.
-/

/-- The external `ethers_core` primitives consumed by the program, as an
abstract record of deterministic total functions. -/
structure Crypto where
  secret_key_to_address : Nat → Nat
  get_contract_address : Nat → Nat → Nat
  get_create2_address_from_hash : Nat → Nat → Nat → Nat

/-- `fn test_address(address, target, mask) -> bool { address & mask == target & mask }` -/
def test_address (address target mask : Nat) : Bool :=
  (address &&& mask) == (target &&& mask)

/-- Material printed by `generate_address` on success:
`address`, `privateKey`. -/
structure EoaReport where
  address : Nat
  private_key : Nat
  deriving DecidableEq, Repr

/-- Material printed by `generate_contract_address` on success:
`contract`, `address` (the deployer), `privateKey`. -/
structure ContractReport where
  contract : Nat
  address : Nat
  private_key : Nat
  deriving DecidableEq, Repr

/-- Material printed by `generate_create2_address` on success:
`contract`, `salt` — no private key field exists for this variant. -/
structure Create2Report where
  contract : Nat
  salt : Nat
  deriving DecidableEq, Repr

/-- `fn generate_address(rng, target, mask) -> bool`: draws a random private
key (passed in here as `private_key`), derives its address, tests the mask;
on success prints address and private key (modelled as `some` report) and
returns `true`, else returns `false` (`none`). -/
def generate_address (C : Crypto) (private_key target mask : Nat) :
    Option EoaReport :=
  let address := C.secret_key_to_address private_key
  if test_address address target mask then
    some ⟨address, private_key⟩
  else
    none

/-- `fn generate_contract_address(rng, target, mask, nonce) -> bool`: draws a
random private key, derives the deployer address, derives
`get_contract_address(address, nonce)`, tests the mask; on success prints
contract, deployer address and private key. -/
def generate_contract_address (C : Crypto) (private_key target mask nonce : Nat) :
    Option ContractReport :=
  let address := C.secret_key_to_address private_key
  let contract := C.get_contract_address address nonce
  if test_address contract target mask then
    some ⟨contract, address, private_key⟩
  else
    none

/-- `fn generate_create2_address(rng, target, mask, factory, codehash) -> bool`:
draws a random 256-bit salt (passed in here as `salt`; no private key is ever
generated), derives `get_create2_address_from_hash(factory, salt, codehash)`,
tests the mask; on success prints contract and salt only. -/
def generate_create2_address (C : Crypto) (salt target mask factory codehash : Nat) :
    Option Create2Report :=
  let contract := C.get_create2_address_from_hash factory salt codehash
  if test_address contract target mask then
    some ⟨contract, salt⟩
  else
    none

/-- The `enum Command` subcommand: EOA address, nonce-deployed contract
address, or create2 contract address. -/
inductive Command where
  | address : Command
  | contractAddress (nonce : Nat) : Command
  | create2Address (factory codehash : Nat) : Command
  deriving DecidableEq, Repr

/-- The parsed `struct Cli`: target, mask, number of cores, the debug
interval `n_iter`, and the subcommand. -/
structure Cli where
  target : Nat
  mask : Nat
  n_cores : Nat
  n_iter : Nat
  command : Command
  deriving DecidableEq, Repr

/-- What a successful iteration prints, tagged by variant (the sum of the
three report shapes). -/
inductive Report where
  | eoa : EoaReport → Report
  | contract : ContractReport → Report
  | create2 : Create2Report → Report
  deriving DecidableEq, Repr

/-- One loop iteration's `match &command { ... }` dispatch: runs the selected
`generate_*` on the freshly drawn random value `r`, returning the printed
report when the candidate matches (`success = true` in the source). -/
def runStrategy (C : Crypto) (cmd : Command) (r target mask : Nat) :
    Option Report :=
  match cmd with
  | .address => (generate_address C r target mask).map Report.eoa
  | .contractAddress nonce =>
      (generate_contract_address C r target mask nonce).map Report.contract
  | .create2Address factory codehash =>
      (generate_create2_address C r target mask factory codehash).map Report.create2

/-- Control location of one worker thread within its `loop`:
`check` — about to `exit.load(Ordering::Relaxed)`;
`gen` — observed `false`, about to run the selected `generate_*` call
(draw randomness, derive, test, and on success print the match);
`setflag` — that call returned `true`, about to `exit.store(true)`;
`stopped` — returned from the closure (terminal). -/
inductive WState where
  | check : WState
  | gen : WState
  | setflag : WState
  | stopped : WState
  deriving DecidableEq, Repr

/-- One worker thread: its control location, its private `rand::thread_rng()`
stream (the `k`-th draw is `rng k`), and how many draws it has consumed. -/
structure Worker where
  st : WState
  rng : Nat → Nat
  idx : Nat

/-- Global state of a run: the shared `exit : AtomicBool`, the spawned
workers, the log of matches printed so far (worker id paired with the printed
report, in emission order), and the log of generation steps performed
(worker ids, in order). -/
structure SysState where
  flag : Bool
  workers : List Worker
  emitted : List (Nat × Report)
  gens : List Nat

/-- A scheduling action: worker `i` performs its next atomic step, or an
external cancellation stores `true` into the shared flag. -/
inductive Act where
  | work (i : Nat) : Act
  | cancel : Act

/-- One small step of the interleaved system. A `work i` action advances
worker `i` by one step of the Rust loop body; `cancel` models an external
writer setting the shutdown flag. Out-of-range ids and stopped workers make
no change. -/
def step (C : Crypto) (target mask : Nat) (cmd : Command) (s : SysState)
    (a : Act) : SysState :=
  match a with
  | .cancel => { s with flag := true }
  | .work i =>
    match s.workers[i]? with
    | none => s
    | some w =>
      match w.st with
      | .stopped => s
      | .check =>
          if s.flag then
            { s with workers := s.workers.set i { w with st := .stopped } }
          else
            { s with workers := s.workers.set i { w with st := .gen } }
      | .gen =>
          match runStrategy C cmd (w.rng w.idx) target mask with
          | some rep =>
              { s with
                workers := s.workers.set i { w with st := .setflag, idx := w.idx + 1 },
                emitted := s.emitted ++ [(i, rep)],
                gens := s.gens ++ [i] }
          | none =>
              { s with
                workers := s.workers.set i { w with st := .check, idx := w.idx + 1 },
                gens := s.gens ++ [i] }
      | .setflag =>
          { s with
            flag := true,
            workers := s.workers.set i { w with st := .check } }

/-- Run a whole schedule from a state. -/
def run (C : Crypto) (target mask : Nat) (cmd : Command) (s : SysState) :
    List Act → SysState
  | [] => s
  | a :: rest => run C target mask cmd (step C target mask cmd s a) rest

/-- The state `main` sets up before the loop: `exit` initialized to `false`,
`n` worker threads spawned at the top of their loop, each owning its private
randomness stream, nothing yet printed. -/
def initState (n : Nat) (rngs : Nat → Nat → Nat) : SysState :=
  { flag := false
    workers := (List.range n).map (fun k => ⟨.check, rngs k, 0⟩)
    emitted := []
    gens := [] }

/-- `fn main()`: destructures the parsed `Cli` (discarding `n_iter` via `..`),
creates the shared flag, spawns `n_cores` workers, and lets the scheduler
interleave them. -/
def runMain (C : Crypto) (cli : Cli) (rngs : Nat → Nat → Nat)
    (sched : List Act) : SysState :=
  run C cli.target cli.mask cli.command (initState cli.n_cores rngs) sched

/-- The control location of worker `i` (out-of-range ids read as terminated). -/
def wstOf (s : SysState) (i : Nat) : WState :=
  match s.workers[i]? with
  | some w => w.st
  | none => .stopped

/-- Number of matches worker `i` has printed. -/
def countEmit (i : Nat) (l : List (Nat × Report)) : Nat :=
  (l.filter (fun p => p.1 == i)).length

/-- Number of generation steps worker `i` has performed. -/
def countGen (i : Nat) (l : List Nat) : Nat :=
  (l.filter (fun j => j == i)).length

/-- Number of scheduled steps of worker `i` in a schedule. -/
def countWork (i : Nat) : List Act → Nat
  | [] => 0
  | .work j :: rest => (if j = i then 1 else 0) + countWork i rest
  | .cancel :: rest => countWork i rest

/-- `hdl.join().unwrap()` over the list of thread results: the first `Err`
panics (surfaces as a fatal error); all-`Ok` completes normally. -/
def joinAll : List (Except String Unit) → Except String Unit
  | [] => .ok ()
  | .ok () :: rest => joinAll rest
  | .error e :: _ => .error e

/-! ## Basic facts about the logs and the flag -/

lemma countEmit_append (i : Nat) (l : List (Nat × Report)) (p : Nat × Report) :
    countEmit i (l ++ [p]) = countEmit i l + (if p.1 = i then 1 else 0) := by
  by_cases h : p.1 = i <;> simp [countEmit, List.filter_append, h]

lemma countGen_append (i : Nat) (l : List Nat) (j : Nat) :
    countGen i (l ++ [j]) = countGen i l + (if j = i then 1 else 0) := by
  by_cases h : j = i <;> simp [countGen, List.filter_append, h]

/-- Exhaustive description of what one worker step can do. -/
lemma step_work_cases (C : Crypto) (t m : Nat) (cmd : Command) (s : SysState)
    (j : Nat) :
    (wstOf s j = .stopped ∧ step C t m cmd s (.work j) = s) ∨
    ∃ w, s.workers[j]? = some w ∧
      ((w.st = .check ∧ s.flag = true ∧
        step C t m cmd s (.work j) =
          { s with workers := s.workers.set j { w with st := .stopped } }) ∨
       (w.st = .check ∧ s.flag = false ∧
        step C t m cmd s (.work j) =
          { s with workers := s.workers.set j { w with st := .gen } }) ∨
       (w.st = .setflag ∧
        step C t m cmd s (.work j) =
          { s with flag := true,
                   workers := s.workers.set j { w with st := .check } }) ∨
       (∃ rep, w.st = .gen ∧ runStrategy C cmd (w.rng w.idx) t m = some rep ∧
        step C t m cmd s (.work j) =
          { s with
            workers := s.workers.set j { w with st := .setflag, idx := w.idx + 1 },
            emitted := s.emitted ++ [(j, rep)],
            gens := s.gens ++ [j] }) ∨
       (w.st = .gen ∧ runStrategy C cmd (w.rng w.idx) t m = none ∧
        step C t m cmd s (.work j) =
          { s with
            workers := s.workers.set j { w with st := .check, idx := w.idx + 1 },
            gens := s.gens ++ [j] })) := by
  cases hw : s.workers[j]? with
  | none => exact Or.inl ⟨by simp [wstOf, hw], by simp [step, hw]⟩
  | some w =>
    cases hst : w.st with
    | stopped => exact Or.inl ⟨by simp [wstOf, hw, hst], by simp [step, hw, hst]⟩
    | check =>
      by_cases hf : s.flag
      · exact Or.inr ⟨w, rfl, Or.inl ⟨hst, hf, by simp [step, hw, hst, hf]⟩⟩
      · exact Or.inr ⟨w, rfl, Or.inr (Or.inl ⟨hst, by simpa using hf,
          by simp [step, hw, hst, hf]⟩)⟩
    | setflag =>
      exact Or.inr ⟨w, rfl, Or.inr (Or.inr (Or.inl ⟨hst,
        by simp [step, hw, hst]⟩))⟩
    | gen =>
      cases hr : runStrategy C cmd (w.rng w.idx) t m with
      | some rep =>
        exact Or.inr ⟨w, rfl, Or.inr (Or.inr (Or.inr (Or.inl ⟨rep, hst, hr,
          by simp [step, hw, hst, hr]⟩)))⟩
      | none =>
        exact Or.inr ⟨w, rfl, Or.inr (Or.inr (Or.inr (Or.inr ⟨hst, hr,
          by simp [step, hw, hst, hr]⟩)))⟩

lemma flag_step_write (C : Crypto) (t m : Nat) (cmd : Command) (s : SysState)
    (a : Act) :
    (step C t m cmd s a).flag = s.flag ∨ (step C t m cmd s a).flag = true := by
  cases a with
  | cancel => right; rfl
  | work j =>
    rcases step_work_cases C t m cmd s j with ⟨_, h⟩ | ⟨w, _, h⟩
    · left; rw [h]
    · rcases h with ⟨_, _, h⟩ | ⟨_, _, h⟩ | ⟨_, h⟩ | ⟨rep, _, _, h⟩ | ⟨_, _, h⟩ <;>
        rw [h] <;> simp

lemma flag_step_true (C : Crypto) (t m : Nat) (cmd : Command) (s : SysState)
    (a : Act) (h : s.flag = true) : (step C t m cmd s a).flag = true := by
  rcases flag_step_write C t m cmd s a with h' | h'
  · rw [h', h]
  · exact h'

lemma flag_run_true (C : Crypto) (t m : Nat) (cmd : Command) (s : SysState)
    (sched : List Act) (h : s.flag = true) :
    (run C t m cmd s sched).flag = true := by
  induction sched generalizing s with
  | nil => exact h
  | cons a rest ih => exact ih _ (flag_step_true C t m cmd s a h)

/-- A step of worker `j` does not touch worker `i`'s slot when `j ≠ i`. -/
lemma workers_step_other (C : Crypto) (t m : Nat) (cmd : Command) (s : SysState)
    (j i : Nat) (hij : j ≠ i) :
    (step C t m cmd s (.work j)).workers[i]? = s.workers[i]? := by
  rcases step_work_cases C t m cmd s j with ⟨_, h⟩ | ⟨w, hw, h⟩
  · rw [h]
  · rcases h with ⟨_, _, h⟩ | ⟨_, _, h⟩ | ⟨_, h⟩ | ⟨rep, _, _, h⟩ | ⟨_, _, h⟩ <;>
      simp [h, List.getElem?_set_ne hij]

lemma wstOf_step_other (C : Crypto) (t m : Nat) (cmd : Command) (s : SysState)
    (j i : Nat) (hij : j ≠ i) :
    wstOf (step C t m cmd s (.work j)) i = wstOf s i := by
  unfold wstOf
  rw [workers_step_other C t m cmd s j i hij]

lemma wstOf_step_cancel (C : Crypto) (t m : Nat) (cmd : Command) (s : SysState)
    (i : Nat) : wstOf (step C t m cmd s .cancel) i = wstOf s i := rfl

/-- A step of worker `j` appends only `j`-tagged entries to the match log. -/
lemma countEmit_step_other (C : Crypto) (t m : Nat) (cmd : Command)
    (s : SysState) (j i : Nat) (hij : j ≠ i) :
    countEmit i (step C t m cmd s (.work j)).emitted = countEmit i s.emitted := by
  rcases step_work_cases C t m cmd s j with ⟨_, h⟩ | ⟨w, hw, h⟩
  · rw [h]
  · rcases h with ⟨_, _, h⟩ | ⟨_, _, h⟩ | ⟨_, h⟩ | ⟨rep, _, _, h⟩ | ⟨_, _, h⟩ <;>
      simp [h, countEmit_append, hij]

lemma countGen_step_other (C : Crypto) (t m : Nat) (cmd : Command)
    (s : SysState) (j i : Nat) (hij : j ≠ i) :
    countGen i (step C t m cmd s (.work j)).gens = countGen i s.gens := by
  rcases step_work_cases C t m cmd s j with ⟨_, h⟩ | ⟨w, hw, h⟩
  · rw [h]
  · rcases h with ⟨_, _, h⟩ | ⟨_, _, h⟩ | ⟨_, h⟩ | ⟨rep, _, _, h⟩ | ⟨_, _, h⟩ <;>
      simp [h, countGen_append, hij]

/-- Reading back a freshly written worker slot. -/
lemma wstOf_after_set (s : SysState) (flag : Bool) (i : Nat) (w' : Worker)
    (e : List (Nat × Report)) (g : List Nat) (h : i < s.workers.length) :
    wstOf ⟨flag, s.workers.set i w', e, g⟩ i = w'.st := by
  unfold wstOf
  simp [List.getElem?_set_self (by simpa using h)]

lemma lt_length_of_get (s : SysState) (i : Nat) (w : Worker)
    (hw : s.workers[i]? = some w) : i < s.workers.length := by
  rcases List.getElem?_eq_some_iff.1 hw with ⟨h, _⟩
  exact h

/-! ## Invariants of the worker-pool state machine -/

/-- Number of generation steps a worker may still perform (and matches it may
still print) once the shutdown flag is `true`: one if it is mid-iteration
(it already passed its `exit.load`), none otherwise. -/
def inflight : WState → Nat
  | .gen => 1
  | _ => 0

/-- Upper bound on a worker's own remaining steps before it returns, once the
shutdown flag is `true`. -/
def stopDist : WState → Nat
  | .gen => 3
  | .setflag => 2
  | .check => 1
  | .stopped => 0

/-- The per-worker emission invariant: worker `i` has printed at most one
match, and if it has printed one it is either about to store the flag or the
flag is already `true` and it is headed straight for termination. -/
def EmitInv (s : SysState) (i : Nat) : Prop :=
  countEmit i s.emitted ≤ 1 ∧
  (countEmit i s.emitted = 1 →
    wstOf s i = .setflag ∨
      (s.flag = true ∧ (wstOf s i = .check ∨ wstOf s i = .stopped)))

lemma emitInv_init (n : Nat) (rngs : Nat → Nat → Nat) (i : Nat) :
    EmitInv (initState n rngs) i := by
  constructor
  · simp [initState, countEmit]
  · intro h
    simp [initState, countEmit] at h

lemma emitInv_step (C : Crypto) (t m : Nat) (cmd : Command) (s : SysState)
    (a : Act) (i : Nat) (h : EmitInv s i) : EmitInv (step C t m cmd s a) i := by
  obtain ⟨h1, h2⟩ := h
  cases a with
  | cancel =>
    refine ⟨h1, fun hc => ?_⟩
    rcases h2 hc with h' | ⟨hf, h'⟩
    · exact Or.inl h'
    · exact Or.inr ⟨rfl, h'⟩
  | work j =>
    by_cases hij : j = i
    · subst hij
      rcases step_work_cases C t m cmd s j with ⟨_, he⟩ | ⟨w, hw, hc⟩
      · rw [he]; exact ⟨h1, h2⟩
      · have hlen := lt_length_of_get s j w hw
        have hwst : wstOf s j = w.st := by unfold wstOf; rw [hw]
        rcases hc with ⟨hst, hf, he⟩ | ⟨hst, hf, he⟩ | ⟨hst, he⟩ |
          ⟨rep, hst, hr, he⟩ | ⟨hst, hr, he⟩
        · -- check, flag true → stopped
          refine ⟨by rw [he]; exact h1, fun hc => ?_⟩
          rw [he] at hc ⊢
          exact Or.inr ⟨by simpa using hf,
            Or.inr (by simpa using wstOf_after_set s s.flag j _ _ _ hlen)⟩
        · -- check, flag false → gen
          refine ⟨by rw [he]; exact h1, fun hc => ?_⟩
          exfalso
          rw [he] at hc
          rcases h2 (by simpa using hc) with h' | ⟨hf', _⟩
          · rw [hwst, hst] at h'; cases h'
          · rw [hf] at hf'; cases hf'
        · -- setflag → flag := true, check
          refine ⟨by rw [he]; exact h1, fun hc => ?_⟩
          rw [he]
          exact Or.inr ⟨rfl,
            Or.inl (by simpa using wstOf_after_set s true j _ _ _ hlen)⟩
        · -- gen, match found → emit, setflag
          have hzero : countEmit j s.emitted = 0 := by
            rcases Nat.lt_or_ge (countEmit j s.emitted) 1 with h' | h'
            · omega
            · exfalso
              have : countEmit j s.emitted = 1 := by omega
              rcases h2 this with h'' | ⟨_, h''⟩
              · rw [hwst, hst] at h''; cases h''
              · rw [hwst, hst] at h''
                rcases h'' with h'' | h'' <;> cases h''
          constructor
          · rw [he]; simp [countEmit_append, hzero]
          · intro _
            rw [he]
            exact Or.inl (by simpa using wstOf_after_set s s.flag j _ _ _ hlen)
        · -- gen, no match → check
          have hzero : countEmit j s.emitted = 0 := by
            rcases Nat.lt_or_ge (countEmit j s.emitted) 1 with h' | h'
            · omega
            · exfalso
              have : countEmit j s.emitted = 1 := by omega
              rcases h2 this with h'' | ⟨_, h''⟩
              · rw [hwst, hst] at h''; cases h''
              · rw [hwst, hst] at h''
                rcases h'' with h'' | h'' <;> cases h''
          refine ⟨by rw [he]; exact h1, fun hc => ?_⟩
          exfalso
          rw [he] at hc
          simp only at hc
          omega
    · -- another worker's step: worker i's slot and count are untouched
      have hc := countEmit_step_other C t m cmd s j i hij
      have hwst := wstOf_step_other C t m cmd s j i hij
      refine ⟨by rw [hc]; exact h1, fun h' => ?_⟩
      rw [hc] at h'
      rcases h2 h' with h'' | ⟨hf, h''⟩
      · exact Or.inl (by rw [hwst]; exact h'')
      · exact Or.inr ⟨flag_step_true C t m cmd s _ hf, by rw [hwst]; exact h''⟩

lemma emitInv_run (C : Crypto) (t m : Nat) (cmd : Command) (s : SysState)
    (sched : List Act) (i : Nat) (h : EmitInv s i) :
    EmitInv (run C t m cmd s sched) i := by
  induction sched generalizing s with
  | nil => exact h
  | cons a rest ih => exact ih _ (emitInv_step C t m cmd s a i h)

/-- Once the flag is `true`, one step cannot increase a worker's generation
count plus its remaining in-flight allowance. -/
lemma gens_measure_step (C : Crypto) (t m : Nat) (cmd : Command) (s : SysState)
    (a : Act) (i : Nat) (h : s.flag = true) :
    countGen i (step C t m cmd s a).gens +
        inflight (wstOf (step C t m cmd s a) i) ≤
      countGen i s.gens + inflight (wstOf s i) := by
  cases a with
  | cancel => simp [wstOf_step_cancel]; rfl
  | work j =>
    by_cases hij : j = i
    · subst hij
      rcases step_work_cases C t m cmd s j with ⟨_, he⟩ | ⟨w, hw, hc⟩
      · rw [he]
      · have hlen := lt_length_of_get s j w hw
        have hwst : wstOf s j = w.st := by unfold wstOf; rw [hw]
        rcases hc with ⟨hst, hf, he⟩ | ⟨hst, hf, he⟩ | ⟨hst, he⟩ |
          ⟨rep, hst, hr, he⟩ | ⟨hst, hr, he⟩
        · rw [he]
          have : wstOf { s with workers := s.workers.set j { w with st := .stopped } } j
              = WState.stopped := by
            simpa using wstOf_after_set s s.flag j _ _ _ hlen
          simp only at this ⊢
          rw [this, hwst, hst]
          simp [inflight]
        · rw [hf] at h; cases h
        · rw [he]
          have : wstOf { s with
              flag := true,
              workers := s.workers.set j { w with st := .check } } j
              = WState.check := by
            simpa using wstOf_after_set s true j _ _ _ hlen
          simp only at this ⊢
          rw [this, hwst, hst]
          simp [inflight]
        · rw [he]
          have : wstOf { s with
              workers := s.workers.set j { w with st := .setflag, idx := w.idx + 1 },
              emitted := s.emitted ++ [(j, rep)],
              gens := s.gens ++ [j] } j = WState.setflag := by
            simpa using wstOf_after_set s s.flag j _ _ _ hlen
          simp only at this ⊢
          rw [this, hwst, hst]
          simp [inflight, countGen_append]
        · rw [he]
          have : wstOf { s with
              workers := s.workers.set j { w with st := .check, idx := w.idx + 1 },
              gens := s.gens ++ [j] } j = WState.check := by
            simpa using wstOf_after_set s s.flag j _ _ _ hlen
          simp only at this ⊢
          rw [this, hwst, hst]
          simp [inflight, countGen_append]
    · rw [countGen_step_other C t m cmd s j i hij,
        wstOf_step_other C t m cmd s j i hij]

/-- Once the flag is `true`, worker `i` performs at most `inflight` (0 or 1)
further generation steps, over any continuation of the run. -/
lemma countGen_run_flag (C : Crypto) (t m : Nat) (cmd : Command) (s : SysState)
    (sched : List Act) (i : Nat) (h : s.flag = true) :
    countGen i (run C t m cmd s sched).gens ≤
      countGen i s.gens + inflight (wstOf s i) := by
  induction sched generalizing s with
  | nil => exact Nat.le_add_right _ _
  | cons a rest ih =>
    calc countGen i (run C t m cmd (step C t m cmd s a) rest).gens
        ≤ countGen i (step C t m cmd s a).gens +
            inflight (wstOf (step C t m cmd s a) i) :=
          ih _ (flag_step_true C t m cmd s a h)
      _ ≤ countGen i s.gens + inflight (wstOf s i) :=
          gens_measure_step C t m cmd s a i h

/-- Once the flag is `true`, one step cannot increase a worker's emission
count plus its remaining in-flight allowance. -/
lemma emit_measure_step (C : Crypto) (t m : Nat) (cmd : Command) (s : SysState)
    (a : Act) (i : Nat) (h : s.flag = true) :
    countEmit i (step C t m cmd s a).emitted +
        inflight (wstOf (step C t m cmd s a) i) ≤
      countEmit i s.emitted + inflight (wstOf s i) := by
  cases a with
  | cancel => simp [wstOf_step_cancel]; rfl
  | work j =>
    by_cases hij : j = i
    · subst hij
      rcases step_work_cases C t m cmd s j with ⟨_, he⟩ | ⟨w, hw, hc⟩
      · rw [he]
      · have hlen := lt_length_of_get s j w hw
        have hwst : wstOf s j = w.st := by unfold wstOf; rw [hw]
        rcases hc with ⟨hst, hf, he⟩ | ⟨hst, hf, he⟩ | ⟨hst, he⟩ |
          ⟨rep, hst, hr, he⟩ | ⟨hst, hr, he⟩
        · rw [he]
          have : wstOf { s with workers := s.workers.set j { w with st := .stopped } } j
              = WState.stopped := by
            simpa using wstOf_after_set s s.flag j _ _ _ hlen
          simp only at this ⊢
          rw [this, hwst, hst]
          simp [inflight]
        · rw [hf] at h; cases h
        · rw [he]
          have : wstOf { s with
              flag := true,
              workers := s.workers.set j { w with st := .check } } j
              = WState.check := by
            simpa using wstOf_after_set s true j _ _ _ hlen
          simp only at this ⊢
          rw [this, hwst, hst]
          simp [inflight]
        · rw [he]
          have : wstOf { s with
              workers := s.workers.set j { w with st := .setflag, idx := w.idx + 1 },
              emitted := s.emitted ++ [(j, rep)],
              gens := s.gens ++ [j] } j = WState.setflag := by
            simpa using wstOf_after_set s s.flag j _ _ _ hlen
          simp only at this ⊢
          rw [this, hwst, hst]
          simp [inflight, countEmit_append]
        · rw [he]
          have : wstOf { s with
              workers := s.workers.set j { w with st := .check, idx := w.idx + 1 },
              gens := s.gens ++ [j] } j = WState.check := by
            simpa using wstOf_after_set s s.flag j _ _ _ hlen
          simp only at this ⊢
          rw [this, hwst, hst]
          simp [inflight]
    · rw [countEmit_step_other C t m cmd s j i hij,
        wstOf_step_other C t m cmd s j i hij]

/-- Once the flag is `true`, worker `i` prints at most `inflight` (0 or 1)
further matches, over any continuation of the run; in particular a worker
that is not mid-iteration prints nothing more. -/
lemma countEmit_run_flag (C : Crypto) (t m : Nat) (cmd : Command) (s : SysState)
    (sched : List Act) (i : Nat) (h : s.flag = true) :
    countEmit i (run C t m cmd s sched).emitted ≤
      countEmit i s.emitted + inflight (wstOf s i) := by
  induction sched generalizing s with
  | nil => exact Nat.le_add_right _ _
  | cons a rest ih =>
    calc countEmit i (run C t m cmd (step C t m cmd s a) rest).emitted
        ≤ countEmit i (step C t m cmd s a).emitted +
            inflight (wstOf (step C t m cmd s a) i) :=
          ih _ (flag_step_true C t m cmd s a h)
      _ ≤ countEmit i s.emitted + inflight (wstOf s i) :=
          emit_measure_step C t m cmd s a i h

/-- Once the flag is `true`, a worker given at least `stopDist` of its own
steps (at most 3) has returned. -/
lemma stopped_of_countWork (C : Crypto) (t m : Nat) (cmd : Command)
    (s : SysState) (sched : List Act) (i : Nat) (h : s.flag = true)
    (hcw : stopDist (wstOf s i) ≤ countWork i sched) :
    wstOf (run C t m cmd s sched) i = .stopped := by
  induction sched generalizing s with
  | nil =>
    cases hst : wstOf s i <;> rw [hst] at hcw <;>
      simp [stopDist, countWork] at hcw
    · exact hst
  | cons a rest ih =>
    cases a with
    | cancel =>
      refine ih _ (flag_step_true C t m cmd s .cancel h) ?_
      rw [wstOf_step_cancel]
      simpa [countWork] using hcw
    | work j =>
      by_cases hij : j = i
      · subst hij
        have hcw' : stopDist (wstOf s j) ≤ 1 + countWork j rest := by
          simpa [countWork] using hcw
        refine ih _ (flag_step_true C t m cmd s (.work j) h) ?_
        rcases step_work_cases C t m cmd s j with ⟨hs, he⟩ | ⟨w, hw, hc⟩
        · rw [he, hs]
          exact Nat.zero_le _
        · have hlen := lt_length_of_get s j w hw
          have hwst : wstOf s j = w.st := by unfold wstOf; rw [hw]
          rcases hc with ⟨hst, hf, he⟩ | ⟨hst, hf, he⟩ | ⟨hst, he⟩ |
            ⟨rep, hst, hr, he⟩ | ⟨hst, hr, he⟩
          · rw [he]
            have : wstOf { s with workers := s.workers.set j { w with st := .stopped } } j
                = WState.stopped := by
              simpa using wstOf_after_set s s.flag j _ _ _ hlen
            simp only at this ⊢
            rw [this]
            exact Nat.zero_le _
          · rw [hf] at h; cases h
          · rw [he]
            have : wstOf { s with
                flag := true,
                workers := s.workers.set j { w with st := .check } } j
                = WState.check := by
              simpa using wstOf_after_set s true j _ _ _ hlen
            simp only at this ⊢
            rw [this]
            rw [hwst, hst] at hcw'
            simp [stopDist] at hcw' ⊢
            omega
          · rw [he]
            have : wstOf { s with
                workers := s.workers.set j { w with st := .setflag, idx := w.idx + 1 },
                emitted := s.emitted ++ [(j, rep)],
                gens := s.gens ++ [j] } j = WState.setflag := by
              simpa using wstOf_after_set s s.flag j _ _ _ hlen
            simp only at this ⊢
            rw [this]
            rw [hwst, hst] at hcw'
            simp [stopDist] at hcw' ⊢
            omega
          · rw [he]
            have : wstOf { s with
                workers := s.workers.set j { w with st := .check, idx := w.idx + 1 },
                gens := s.gens ++ [j] } j = WState.check := by
              simpa using wstOf_after_set s s.flag j _ _ _ hlen
            simp only at this ⊢
            rw [this]
            rw [hwst, hst] at hcw'
            simp [stopDist] at hcw' ⊢
            omega
      · refine ih _ (flag_step_true C t m cmd s (.work j) h) ?_
        rw [wstOf_step_other C t m cmd s j i hij]
        simpa [countWork, hij] using hcw

/-- A concrete instance of the external primitives, used to evaluate the
embedding at explicit inputs. -/
def C0 : Crypto :=
  ⟨fun pk => pk,
   fun deployer nonce => deployer + nonce,
   fun factory salt codehash => factory + salt + codehash⟩

/-! ## Claims -/

/-- C2: the mask matcher returns `true` iff `(candidate AND mask)` equals
`(target AND mask)`. As a function of exactly its three arguments in this
embedding it is pure and side-effect-free by construction, mirroring the
source, whose `test_address` only reads its parameters. -/
theorem test_address_spec (address target mask : Nat) :
    test_address address target mask = true ↔
      address &&& mask = target &&& mask := by
  simp [test_address]

/-- Witness for C2's theorem at a concrete triple. -/
theorem test_address_spec_witness :
    test_address 5 1 1 = true ↔ 5 &&& 1 = 1 &&& 1 :=
  test_address_spec 5 1 1

/-- C9: the mask matcher is reflexive — `matches(a, a, mask)` holds for every
address and every mask. -/
theorem test_address_reflexive (a mask : Nat) : test_address a a mask = true := by
  simp [test_address]

/-- C5: for the deployed-contract strategy, the reported contract address is
exactly `get_contract_address` applied to the reported deployer address and
the run's nonce (so re-running the primitive on the returned deployer and the
same nonce reproduces it), and the reconstruction material is the private key
together with the deployer address. -/
theorem generate_contract_address_spec (C : Crypto)
    (private_key target mask nonce : Nat) (r : ContractReport)
    (h : generate_contract_address C private_key target mask nonce = some r) :
    r.contract = C.get_contract_address r.address nonce ∧
    r.address = C.secret_key_to_address private_key ∧
    r.private_key = private_key := by
  simp only [generate_contract_address] at h
  split at h
  · injection h with h2
    subst h2
    exact ⟨rfl, rfl, rfl⟩
  · exact absurd h (by simp)

/-- Witness for C5's theorem: with `C0`, private key 5, nonce 7 and an
all-zero mask the first candidate matches and reports `⟨12, 5, 5⟩`. -/
theorem generate_contract_address_spec_witness :
    (⟨12, 5, 5⟩ : ContractReport).contract =
        C0.get_contract_address (⟨12, 5, 5⟩ : ContractReport).address 7 ∧
    (⟨12, 5, 5⟩ : ContractReport).address = C0.secret_key_to_address 5 ∧
    (⟨12, 5, 5⟩ : ContractReport).private_key = 5 :=
  generate_contract_address_spec C0 5 0 0 7 ⟨12, 5, 5⟩ (by decide)

/-- C6: the create2 strategy consumes only a random salt — its randomness
input is the salt itself and no private key is ever derived or reported: a
successful iteration's report is exactly the derived contract address paired
with that salt (`Create2Report` has no private-key field at all). -/
theorem generate_create2_address_spec (C : Crypto)
    (salt target mask factory codehash : Nat) (r : Create2Report)
    (h : generate_create2_address C salt target mask factory codehash = some r) :
    r = ⟨C.get_create2_address_from_hash factory salt codehash, salt⟩ := by
  simp only [generate_create2_address] at h
  split at h
  · injection h with h2
    exact h2.symm
  · exact absurd h (by simp)

/-- Witness for C6's theorem at a concrete input. -/
theorem generate_create2_address_spec_witness :
    (⟨33, 3⟩ : Create2Report) = ⟨C0.get_create2_address_from_hash 10 3 20, 3⟩ :=
  generate_create2_address_spec C0 3 0 0 10 20 ⟨33, 3⟩ (by decide)

/-- C10: `n_iter` is parsed but destructured away by `main`'s `..` pattern:
two runs of `main` whose configurations differ only in `n_iter` are literally
the same computation — same schedule, same randomness, same final state
(flag, workers, printed matches, iteration log). No counter or telemetry
reads it anywhere in the embedded program. -/
theorem n_iter_has_no_effect (C : Crypto) (target mask n_cores ni₁ ni₂ : Nat)
    (cmd : Command) (rngs : Nat → Nat → Nat) (sched : List Act) :
    runMain C ⟨target, mask, n_cores, ni₁, cmd⟩ rngs sched =
      runMain C ⟨target, mask, n_cores, ni₂, cmd⟩ rngs sched := rfl

/-- C7: the shared shutdown flag is created `false`; the only writes to it
(`exit.store(true)` by a successful worker, or an external cancellation)
store `true`; it is never reset, so once `true` it remains `true` for the
rest of the run. -/
theorem shutdown_flag_monotone :
    (∀ n rngs, (initState n rngs).flag = false) ∧
    (∀ (C : Crypto) (t m : Nat) (cmd : Command) (s : SysState) (a : Act),
      (step C t m cmd s a).flag = s.flag ∨ (step C t m cmd s a).flag = true) ∧
    (∀ (C : Crypto) (t m : Nat) (cmd : Command) (s : SysState)
        (sched : List Act),
      s.flag = true → (run C t m cmd s sched).flag = true) :=
  ⟨fun _ _ => rfl, flag_step_write,
   fun C t m cmd s sched h => flag_run_true C t m cmd s sched h⟩

/-- Witness for C7's theorem at concrete states. -/
theorem shutdown_flag_monotone_witness :
    (initState 2 (fun _ _ => 0)).flag = false ∧
    (run C0 0 0 .address ⟨true, [], [], []⟩ [Act.cancel, Act.work 0]).flag
      = true :=
  ⟨shutdown_flag_monotone.1 2 (fun _ _ => 0),
   shutdown_flag_monotone.2.2 C0 0 0 .address ⟨true, [], [], []⟩
     [Act.cancel, Act.work 0] rfl⟩

/-- C8: `main` spawns exactly `n_cores` workers sharing the one flag cell of
the state, then joins every handle with `hdl.join().unwrap()`: the join loop
succeeds only when every thread terminated normally, and any join failure is
surfaced (the `unwrap` panic), never swallowed. -/
theorem coordinator_spawns_and_joins (n : Nat) (rngs : Nat → Nat → Nat)
    (rs : List (Except String Unit)) :
    (initState n rngs).workers.length = n ∧
    (joinAll rs = .ok () ↔ ∀ r ∈ rs, r = .ok ()) := by
  refine ⟨by simp [initState], ?_⟩
  induction rs with
  | nil => simp [joinAll]
  | cons r rest ih =>
    cases r with
    | ok u => cases u; simp [joinAll, ih]
    | error e => simp [joinAll]

/-- Witness for C8's theorem: three workers spawned; a failed join is
reported, not swallowed. -/
theorem coordinator_spawns_and_joins_witness :
    (initState 3 (fun _ _ => 0)).workers.length = 3 ∧
    (joinAll [Except.error "thread panicked", Except.ok ()] = .ok () ↔
      ∀ r ∈ [Except.error "thread panicked", Except.ok ()], r = .ok ()) :=
  coordinator_spawns_and_joins 3 (fun _ _ => 0)
    [Except.error "thread panicked", Except.ok ()]

/-- C1 (amended): each worker prints at most one match per run — after
printing it proceeds to its `exit.store(true)` and then observes the flag and
stops — but mutual exclusion across workers is not provided, so a run with
`N` workers can print up to `N` matches. -/
theorem at_most_one_match_per_worker (C : Crypto) (t m : Nat) (cmd : Command)
    (n : Nat) (rngs : Nat → Nat → Nat) (sched : List Act) (i : Nat) :
    countEmit i (run C t m cmd (initState n rngs) sched).emitted ≤ 1 :=
  (emitInv_run C t m cmd _ sched i (emitInv_init n rngs i)).1

/-- C1 as stated is false on the code: two workers that both pass the flag
check before either stores the flag each print a match (`println!` happens
inside `generate_address`, before `exit.store(true)`, and the store is not a
compare-exchange), so a second match is reported after the first. -/
theorem two_matches_in_one_run :
    1 < (runMain C0 ⟨0, 0, 2, 100000, .address⟩ (fun _ _ => 0)
      [.work 0, .work 1, .work 0, .work 1]).emitted.length := by
  decide

/-- C3: the loop checks the flag before generating: a worker at the top of
its loop with the flag already set stops immediately, generating and printing
nothing further; consequently, once the flag is set, each worker performs at
most one further generation step — its possibly in-flight iteration. -/
theorem shutdown_checked_before_generation (C : Crypto) (t m : Nat)
    (cmd : Command) (s : SysState) (sched : List Act) (i : Nat)
    (h : s.flag = true) :
    (wstOf s i = .check →
      wstOf (step C t m cmd s (.work i)) i = .stopped ∧
      (step C t m cmd s (.work i)).gens = s.gens ∧
      (step C t m cmd s (.work i)).emitted = s.emitted) ∧
    countGen i (run C t m cmd s sched).gens ≤
      countGen i s.gens + inflight (wstOf s i) := by
  constructor
  · intro hc
    rcases step_work_cases C t m cmd s i with ⟨hs, _⟩ | ⟨w, hw, hcs⟩
    · rw [hs] at hc; cases hc
    · have hwst : wstOf s i = w.st := by unfold wstOf; rw [hw]
      have hlen := lt_length_of_get s i w hw
      rcases hcs with ⟨hst, hf, he⟩ | ⟨hst, hf, he⟩ | ⟨hst, he⟩ |
        ⟨rep, hst, hr, he⟩ | ⟨hst, hr, he⟩
      · rw [he]
        exact ⟨by simpa using wstOf_after_set s s.flag i _ _ _ hlen, rfl, rfl⟩
      · rw [hf] at h; cases h
      · rw [hwst, hst] at hc; cases hc
      · rw [hwst, hst] at hc; cases hc
      · rw [hwst, hst] at hc; cases hc
  · exact countGen_run_flag C t m cmd s sched i h

/-- Witness for C3's theorem: one worker at its check with the flag set. -/
theorem shutdown_checked_before_generation_witness :
    (wstOf ⟨true, [⟨WState.check, fun _ => 0, 0⟩], [], []⟩ 0 = .check →
      wstOf (step C0 0 0 .address
        ⟨true, [⟨WState.check, fun _ => 0, 0⟩], [], []⟩ (.work 0)) 0
          = .stopped ∧
      (step C0 0 0 .address
        ⟨true, [⟨WState.check, fun _ => 0, 0⟩], [], []⟩ (.work 0)).gens = [] ∧
      (step C0 0 0 .address
        ⟨true, [⟨WState.check, fun _ => 0, 0⟩], [], []⟩ (.work 0)).emitted
          = []) ∧
    countGen 0 (run C0 0 0 .address
        ⟨true, [⟨WState.check, fun _ => 0, 0⟩], [], []⟩ [.work 0]).gens ≤
      countGen 0 [] +
        inflight (wstOf ⟨true, [⟨WState.check, fun _ => 0, 0⟩], [], []⟩ 0) :=
  shutdown_checked_before_generation C0 0 0 .address
    ⟨true, [⟨WState.check, fun _ => 0, 0⟩], [], []⟩ [.work 0] 0 rfl

/-- C4 as stated is false on the code: the flag is set externally (`cancel`)
before any match has been printed, yet the worker already past its check
completes its in-flight `generate_address` call and prints a match. -/
theorem match_emitted_after_external_cancel :
    (runMain C0 ⟨0, 0, 1, 100000, .address⟩ (fun _ _ => 0)
      [.work 0, .cancel]).flag = true ∧
    (runMain C0 ⟨0, 0, 1, 100000, .address⟩ (fun _ _ => 0)
      [.work 0, .cancel]).emitted = [] ∧
    (runMain C0 ⟨0, 0, 1, 100000, .address⟩ (fun _ _ => 0)
      [.work 0, .cancel, .work 0]).emitted.length = 1 := by
  decide

/-- C4 (amended): once the flag is set, every worker reaches its terminal
state within at most 3 of its own steps, and prints at most one further
match — none at all unless it was mid-iteration when the flag was set. -/
theorem shutdown_propagates_bounded (C : Crypto) (t m : Nat) (cmd : Command)
    (s : SysState) (sched : List Act) (i : Nat) (h : s.flag = true) :
    (3 ≤ countWork i sched → wstOf (run C t m cmd s sched) i = .stopped) ∧
    countEmit i (run C t m cmd s sched).emitted ≤
      countEmit i s.emitted + inflight (wstOf s i) := by
  constructor
  · intro hcw
    refine stopped_of_countWork C t m cmd s sched i h ?_
    calc stopDist (wstOf s i) ≤ 3 := by cases wstOf s i <;> simp [stopDist]
      _ ≤ countWork i sched := hcw
  · exact countEmit_run_flag C t m cmd s sched i h

/-- Witness for C4's amended theorem: a cancelled run with one worker at its
check; three of its own steps suffice to stop and nothing is printed. -/
theorem shutdown_propagates_bounded_witness :
    (3 ≤ countWork 0 [.work 0, .work 0, .work 0] →
      wstOf (run C0 0 0 .address
        ⟨true, [⟨WState.check, fun _ => 0, 0⟩], [], []⟩
        [.work 0, .work 0, .work 0]) 0 = .stopped) ∧
    countEmit 0 (run C0 0 0 .address
        ⟨true, [⟨WState.check, fun _ => 0, 0⟩], [], []⟩
        [.work 0, .work 0, .work 0]).emitted ≤
      countEmit 0 [] +
        inflight (wstOf ⟨true, [⟨WState.check, fun _ => 0, 0⟩], [], []⟩ 0) :=
  shutdown_propagates_bounded C0 0 0 .address
    ⟨true, [⟨WState.check, fun _ => 0, 0⟩], [], []⟩
    [.work 0, .work 0, .work 0] 0 rfl
